import Mathlib

/-!
# Verification of the `dops` bulkdownload module

A shallow embedding of the bounded concurrent downloader of the `dops`
CLI toolkit (package `bulkdownload`): the line-reading helper
`readLines`, the per-item transfer `downloadFile`, and the fan-out
orchestration `downloadMultipleFiles` together with the surrounding
`bulkdownload` action.

Pure string helpers from the Go standard library that the module calls
(`filepath.Base`, `bufio.ScanLines`, `filepath.FromSlash`) are embedded
for the Unix platform (`os.PathSeparator = '/'`), which is the platform
the code's path handling is analysed on.
-/

namespace Dops

/-! ## Go standard library: path helpers (Unix) -/

/-- The Unix `os.PathSeparator`. -/
def pathSeparator : Char := '/'

/-- Go `filepath.FromSlash` on a character list: each `'/'` is replaced by
`os.PathSeparator` (the identity on Unix). -/
def fromSlashChars (l : List Char) : List Char :=
  l.map (fun c => if c = '/' then pathSeparator else c)

/-- Go `filepath.FromSlash` on strings. -/
def fromSlash (s : String) : String := ⟨fromSlashChars s.data⟩

/-- Go `filepath.Base` on a character list, translated from
`path/filepath` (Unix, empty volume name): empty path gives `"."`;
trailing separators are stripped; everything up to and including the
last separator is thrown away; a path of only separators gives `"/"`. -/
def baseChars (l : List Char) : List Char :=
  if l = [] then ['.']
  else
    let stripped := (l.reverse.dropWhile (fun c => c = '/')).reverse
    let last := (stripped.reverse.takeWhile (fun c => ¬ c = '/')).reverse
    if last = [] then ['/'] else last

/-- Go `filepath.Base` on strings. -/
def filepathBase (s : String) : String := ⟨baseChars s.data⟩

/-! ## Go standard library: `bufio.ScanLines` -/

/-- Go `dropCR` from `bufio`: drops one terminal carriage return. -/
def dropCR (l : List Char) : List Char :=
  match l.getLast? with
  | some c => if c = '\r' then l.dropLast else l
  | none => l

/-- The scanning loop of `bufio.Scanner` under the `ScanLines` split
function: tokens are the maximal `'\n'`-free runs, each with one
terminal `'\r'` dropped; data left over at EOF forms a final token only
when it is nonempty. `acc` holds the current token reversed. -/
def scanLinesAux : List Char → List Char → List (List Char)
  | acc, [] => if acc.isEmpty then [] else [dropCR acc.reverse]
  | acc, c :: cs =>
    if c = '\n' then dropCR acc.reverse :: scanLinesAux [] cs
    else scanLinesAux (c :: acc) cs

/-- All tokens `bufio.Scanner`/`ScanLines` produces for a whole input. -/
def scanLines (s : String) : List String :=
  (scanLinesAux [] s.data).map (fun l => ⟨l⟩)

/-- A newline-delimited file holding the given lines: each line followed
by one `'\n'` terminator (spec-side description of the input format,
used to state what `readLines` yields on such a file). -/
def linesJoin : List (List Char) → List Char
  | [] => []
  | l :: ls => l ++ '\n' :: linesJoin ls

/-! ## `readLines` and the surrounding `bulkdownload` action

`readLines(path)` opens the file, scans it line by line with the default
`bufio.ScanLines` split function, appends every scanned token to `lines`
(empty tokens included — there is no filtering), and returns the lines.
The file's accessibility and content are the environment: `.error e`
stands for `os.Open` failing with error `e`, `.ok content` for a
readable file holding `content` (an in-memory scan of which reports no
scanner error). -/
def readLines (file : Except String String) : Except String (List String) :=
  match file with
  | .error e => .error e
  | .ok content => .ok (scanLines content)

/-- The control flow of the `bulkdownload` action up to dispatch: the
error of `readLines`, when there is one, is returned as the action's
result before `wg.Add`, the progress bar, or any download is reached;
otherwise the URL list handed to `downloadMultipleFiles` is exactly
`readLines`' output. -/
def bulkAction (file : Except String String) : Except String (List String) :=
  match readLines file with
  | .error err => .error err
  | .ok urls => .ok urls

/-! ## `downloadFile`: the per-item transfer -/

/-- The HTTP response `http.Get` produced: status code and full body
(bytes). -/
structure HttpResponse where
  statusCode : Nat
  body : List Nat
deriving DecidableEq, Repr

/-- The environment one `downloadFile` call runs against: `http = none`
means `http.Get` returned an error (connection/DNS failure); the `Ok`
flags tell whether `os.MkdirAll`, `os.Create` and `io.Copy` succeed. -/
structure DlEnv where
  http : Option HttpResponse
  mkdirOk : Bool
  createOk : Bool
  copyOk : Bool
deriving Repr

/-- The errors `downloadFile` can return. -/
inductive DlError
  | getError
  | mkdirError
  | createError
  | copyError
deriving DecidableEq, Repr

/-- What one `downloadFile` call did: its returned error (`none` = it
returned `nil`), the file system afterwards (path ↦ content),
whether the non-OK-status diagnostic line was printed, whether
`os.MkdirAll` was called, and whether `wg.Done()` was reached. -/
structure DLOutcome where
  res : Option DlError
  fs : String → Option (List Nat)
  statusDiag : Bool
  mkdirCalled : Bool
  wgDone : Bool

/-- The body of `downloadFile(URL, outputDir)`, translated statement by statement:
`http.Get`, the `StatusOK` check (diagnostic only), `file :=
filepath.Base(URL)`, the `outputDir != ""` block (`os.MkdirAll(outputDir,
0770)` then `outputDir += os.PathSeparator`), `os.Create(
filepath.FromSlash(outputDir) + file)` (create-or-truncate, so the file
is empty right after), `io.Copy` of the body, then `wg.Done()` and
`return nil`. `fs0` is the file system before the call; the content a
partially failed `io.Copy` leaves behind is modelled as the truncated
file `os.Create` made. -/
def downloadFile (env : DlEnv) (URL outputDir : String)
    (fs0 : String → Option (List Nat)) : DLOutcome :=
  match env.http with
  | none => ⟨some .getError, fs0, false, false, false⟩
  | some response =>
    let statusDiag : Bool := decide (¬ response.statusCode = 200)
    let file := filepathBase URL
    if ¬ outputDir = "" ∧ env.mkdirOk = false then
      ⟨some .mkdirError, fs0, statusDiag, true, false⟩
    else
      let mkdirCalled : Bool := decide (¬ outputDir = "")
      let outputDir2 :=
        if ¬ outputDir = "" then outputDir ++ pathSeparator.toString else outputDir
      if env.createOk = false then
        ⟨some .createError, fs0, statusDiag, mkdirCalled, false⟩
      else
        let path := fromSlash outputDir2 ++ file
        let fs1 : String → Option (List Nat) :=
          fun q => if q = path then some [] else fs0 q
        if env.copyOk = false then
          ⟨some .copyError, fs1, statusDiag, mkdirCalled, false⟩
        else
          ⟨none, fun q => if q = path then some response.body else fs1 q,
            statusDiag, mkdirCalled, true⟩

/-! ## `downloadMultipleFiles`: the fan-out orchestration

`downloadMultipleFiles(urls, outputDir, concurrentDownloads, pb)` makes
`guard := make(chan struct{}, concurrentDownloads)` and, for each URL in
order, sends one token into `guard` (blocking while the channel holds
`concurrentDownloads` tokens) and spawns a goroutine that sets
`pb.Title` to `filepath.Base(URL)`, runs `downloadFile`, calls
`pterm.Fatal.Println(err)` when it failed (pterm's `Fatal` printer
terminates the process after printing), otherwise prints the success
notice, increments `pb`, and receives one token back from `guard`.
`wg.Add(len(urls))` was executed by the action before the call and
`wg.Done()` sits on `downloadFile`'s success path, so the count of
outstanding `wg` entries starts at `len urls` and is decremented exactly
when a download returns `nil`; `wg.Wait()` after the call returns when
it reaches zero.

The embedding is a small-step transition system. A job is `pending`
(loop not yet reached it / token not yet sent), `inFlight` (its token is
in `guard` and its goroutine is running), `succeeded` or `failed`.
`ok j` abstracts whether job `j`'s `downloadFile` call returns `nil`.
A `failed` job sets `aborted` (the fatal print kills the process), after
which no further step happens. -/

/-- The phase of one download job. -/
inductive JobPhase
  | pending
  | inFlight
  | succeeded
  | failed
deriving DecidableEq, Repr

/-- How many entries of a phase list are in phase `p`. -/
def countPh (p : JobPhase) : List JobPhase → Nat
  | [] => 0
  | x :: xs => (if x = p then 1 else 0) + countPh p xs

/-- The shared state of one `downloadMultipleFiles` run: the jobs'
phases, the fan-out loop index `next`, the outstanding `WaitGroup`
count `wg`, the progress bar's completed count `pb` and title, and
whether a fatal print has terminated the process. -/
structure RunState where
  phases : List JobPhase
  next : Nat
  wg : Nat
  pb : Nat
  title : String
  aborted : Bool
deriving DecidableEq, Repr

/-- The state when `downloadMultipleFiles` is entered: every job
pending, `wg` at `len urls` (`wg.Add(len(urls))`), the progress bar
fresh with its initial title. -/
def initState (urls : List String) : RunState :=
  ⟨urls.map (fun _ => .pending), 0, urls.length, 0, "Downloading", false⟩

/-- The loop body's send on `guard` succeeding for the next URL plus the
spawned goroutine's first statement: job `next` becomes in-flight and
the title becomes `filepath.Base(URL)`. -/
def dispatchState (urls : List String) (s : RunState) : RunState :=
  { s with phases := s.phases.set s.next .inFlight,
           next := s.next + 1,
           title := filepathBase (urls.getD s.next "") }

/-- An in-flight job `j` whose `downloadFile` returned `nil` finishing:
`wg.Done()` (inside `downloadFile`), the success print, `pb.Increment()`
and the receive on `guard` that frees its token. -/
def okState (s : RunState) (j : Nat) : RunState :=
  { s with phases := s.phases.set j .succeeded, wg := s.wg - 1, pb := s.pb + 1 }

/-- An in-flight job `j` whose `downloadFile` returned an error
finishing: `pterm.Fatal.Println` prints and terminates the process, so
no `wg.Done`, no success print, no increment, and the token is never
given back. -/
def failState (s : RunState) (j : Nat) : RunState :=
  { s with phases := s.phases.set j .failed, aborted := true }

/-- All states one scheduler step can reach from `s`: nothing once
aborted; otherwise the fan-out loop may dispatch job `next` when URLs
remain and `guard` (capacity `cap`) has room — the tokens in `guard`
are exactly the in-flight jobs' — and any in-flight job may finish
according to `ok`. -/
def nexts (cap : Nat) (ok : Nat → Bool) (urls : List String) (s : RunState) :
    List RunState :=
  if s.aborted then []
  else
    (if s.next < urls.length ∧ countPh .inFlight s.phases < cap then
      [dispatchState urls s]
    else []) ++
    (List.range s.phases.length).filterMap (fun j =>
      if s.phases.get? j = some .inFlight then
        some (if ok j then okState s j else failState s j)
      else none)

/-- One scheduler step. -/
abbrev StepR (cap : Nat) (ok : Nat → Bool) (urls : List String)
    (a b : RunState) : Prop :=
  b ∈ nexts cap ok urls a

/-- The states a run of `downloadMultipleFiles urls` with guard capacity
`cap` and per-job outcomes `ok` can be in. -/
def Reach (cap : Nat) (ok : Nat → Bool) (urls : List String)
    (s : RunState) : Prop :=
  Relation.ReflTransGen (StepR cap ok urls) (initState urls) s

/-- The invariant every reachable state of a run satisfies: the phase
list matches the URL list; the loop index never passes the list's end;
at most `cap` jobs (and at most `next`) are in flight; the outstanding
`WaitGroup` count is the number of jobs that have not succeeded; the
progress count equals the number of successes; jobs the loop has not
reached are pending; and only jobs whose `downloadFile` returns `nil`
ever become `succeeded`. -/
def Inv (cap : Nat) (ok : Nat → Bool) (urls : List String)
    (s : RunState) : Prop :=
  s.phases.length = urls.length ∧
  s.next ≤ urls.length ∧
  countPh .inFlight s.phases ≤ cap ∧
  countPh .inFlight s.phases ≤ s.next ∧
  s.wg + countPh .succeeded s.phases = urls.length ∧
  s.pb = countPh .succeeded s.phases ∧
  (∀ i p, s.next ≤ i → s.phases.get? i = some p → p = .pending) ∧
  (∀ j, s.phases.get? j = some .succeeded → ok j = true)

/-- The path `downloadFile` writes to, as the code computes it:
`filepath.FromSlash` of the output directory (with one separator
appended when it is nonempty) followed by `filepath.Base` of the URL. -/
def outPath (URL outputDir : String) : String :=
  fromSlash (if ¬ outputDir = "" then outputDir ++ pathSeparator.toString
    else outputDir) ++ filepathBase URL

/-! ## Counting lemmas -/

lemma countPh_le_length (p : JobPhase) (l : List JobPhase) :
    countPh p l ≤ l.length := by
  induction l with
  | nil => simp [countPh]
  | cons x xs ih =>
    simp only [countPh, List.length_cons]
    split <;> omega

lemma countPh_set (l : List JobPhase) (j : Nat) (b c p : JobPhase)
    (h : l.get? j = some p) :
    countPh c (l.set j b) + (if p = c then 1 else 0)
      = countPh c l + (if b = c then 1 else 0) := by
  induction l generalizing j with
  | nil => simp at h
  | cons x xs ih =>
    cases j with
    | zero =>
      simp only [List.get?] at h
      cases h
      simp only [List.set, countPh]
      omega
    | succ j =>
      simp only [List.get?] at h
      simp only [List.set, countPh]
      have := ih j h
      omega

lemma countPh_pos_of_get? (l : List JobPhase) (j : Nat) (c : JobPhase)
    (h : l.get? j = some c) : 1 ≤ countPh c l := by
  induction l generalizing j with
  | nil => simp at h
  | cons x xs ih =>
    cases j with
    | zero =>
      simp only [List.get?] at h
      cases h
      simp [countPh]
    | succ j =>
      simp only [List.get?] at h
      have := ih j h
      simp only [countPh]
      omega

lemma countPh_add_le (a b : JobPhase) (l : List JobPhase) (hab : ¬ a = b) :
    countPh a l + countPh b l ≤ l.length := by
  induction l with
  | nil => simp [countPh]
  | cons x xs ih =>
    simp only [countPh, List.length_cons]
    by_cases hxa : x = a
    · have hxb : ¬ x = b := by
        intro hxb; exact hab (hxa ▸ hxb ▸ rfl)
      simp only [if_pos hxa, if_neg hxb]
      omega
    · simp only [if_neg hxa]
      split <;> omega

lemma eq_of_countPh_eq_length (c : JobPhase) (l : List JobPhase)
    (h : countPh c l = l.length) :
    ∀ j p, l.get? j = some p → p = c := by
  induction l with
  | nil => intro j p hj; simp at hj
  | cons x xs ih =>
    have hle := countPh_le_length c xs
    simp only [countPh, List.length_cons] at h
    have hx : x = c := by
      by_contra hxc
      rw [if_neg hxc] at h
      omega
    have hxs : countPh c xs = xs.length := by
      rw [if_pos hx] at h
      omega
    intro j p hj
    cases j with
    | zero =>
      simp only [List.get?] at hj
      cases hj
      exact hx
    | succ j =>
      simp only [List.get?] at hj
      exact ih hxs j p hj

lemma countPh_init (c : JobPhase) (urls : List String) (hc : ¬ c = .pending) :
    countPh c (initState urls).phases = 0 := by
  simp only [initState]
  induction urls with
  | nil => simp [countPh]
  | cons u us ih =>
    simp only [List.map, countPh, ih]
    rw [if_neg (fun h => hc h.symm)]

/-! ## Step inversion and enabledness -/

/-- What membership in `nexts` means: the source is not aborted, and the
step is a dispatch (loop still has URLs and the guard channel has room)
or the finish of an in-flight job. -/
lemma mem_nexts {cap : Nat} {ok : Nat → Bool} {urls : List String}
    {s s' : RunState} (h : s' ∈ nexts cap ok urls s) :
    s.aborted = false ∧
      ((s.next < urls.length ∧ countPh .inFlight s.phases < cap ∧
          s' = dispatchState urls s) ∨
        ∃ j, s.phases.get? j = some .inFlight ∧
          ((ok j = true ∧ s' = okState s j) ∨
            (ok j = false ∧ s' = failState s j))) := by
  unfold nexts at h
  by_cases hab : s.aborted
  · rw [if_pos hab] at h
    cases h
  · rw [if_neg hab] at h
    refine ⟨by simpa using hab, ?_⟩
    rcases List.mem_append.1 h with h1 | h2
    · by_cases hc : s.next < urls.length ∧ countPh .inFlight s.phases < cap
      · rw [if_pos hc] at h1
        exact Or.inl ⟨hc.1, hc.2, List.mem_singleton.1 h1⟩
      · rw [if_neg hc] at h1
        cases h1
    · rcases List.mem_filterMap.1 h2 with ⟨j, _, hj⟩
      by_cases hin : s.phases.get? j = some .inFlight
      · rw [if_pos hin] at hj
        refine Or.inr ⟨j, hin, ?_⟩
        cases hok : ok j with
        | true =>
          rw [hok] at hj
          exact Or.inl ⟨rfl, by simpa using hj.symm⟩
        | false =>
          rw [hok] at hj
          exact Or.inr ⟨rfl, by simpa using hj.symm⟩
      · rw [if_neg hin] at hj
        cases hj

/-- Dispatch is enabled whenever the run is alive, URLs remain and the
guard has a free slot. -/
lemma dispatch_mem {cap : Nat} {ok : Nat → Bool} {urls : List String}
    {s : RunState} (hab : s.aborted = false) (hn : s.next < urls.length)
    (hcap : countPh .inFlight s.phases < cap) :
    dispatchState urls s ∈ nexts cap ok urls s := by
  unfold nexts
  rw [if_neg (by simp [hab]), if_pos ⟨hn, hcap⟩]
  exact List.mem_append.2 (Or.inl (List.mem_singleton.2 rfl))

/-- An aborted state takes no further step: the fatal print terminated
the process. -/
lemma nexts_aborted {cap : Nat} {ok : Nat → Bool} {urls : List String}
    {s : RunState} (hab : s.aborted = true) :
    nexts cap ok urls s = [] := by
  unfold nexts
  rw [if_pos hab]

/-! ## The run invariant -/

lemma inv_init (cap : Nat) (ok : Nat → Bool) (urls : List String) :
    Inv cap ok urls (initState urls) := by
  refine ⟨by simp [initState], by simp [initState], ?_, ?_, ?_, ?_, ?_, ?_⟩
  · rw [countPh_init .inFlight urls (by simp)]
    exact Nat.zero_le _
  · rw [countPh_init .inFlight urls (by simp)]
    exact Nat.zero_le _
  · rw [countPh_init .succeeded urls (by simp)]
    simp [initState]
  · rw [countPh_init .succeeded urls (by simp)]
    simp [initState]
  · intro i p _ hp
    have : p ∈ (initState urls).phases := List.get?_mem hp
    simp only [initState] at this
    rcases List.mem_map.1 this with ⟨_, _, h⟩
    exact h.symm
  · intro j hj
    have : JobPhase.succeeded ∈ (initState urls).phases := List.get?_mem hj
    simp only [initState] at this
    rcases List.mem_map.1 this with ⟨_, _, h⟩
    cases h

lemma inv_step {cap : Nat} {ok : Nat → Bool} {urls : List String}
    {s s' : RunState} (hinv : Inv cap ok urls s)
    (hstep : StepR cap ok urls s s') : Inv cap ok urls s' := by
  obtain ⟨hlen, hnext, hflc, hfln, hwg, hpb, hpend, hsok⟩ := hinv
  obtain ⟨hab, hcase⟩ := mem_nexts hstep
  rcases hcase with ⟨hn, hcap, rfl⟩ | ⟨j, hin, hfin⟩
  · -- the fan-out loop dispatches job `next`
    have hnl : s.next < s.phases.length := hlen ▸ hn
    obtain ⟨p, hp⟩ : ∃ p, s.phases.get? s.next = some p := by
      rw [List.get?_eq_get hnl]
      exact ⟨_, rfl⟩
    have hpp := hpend s.next p (le_refl _) hp
    subst hpp
    have hsetF := countPh_set s.phases s.next .inFlight .inFlight _ hp
    have hsetS := countPh_set s.phases s.next .inFlight .succeeded _ hp
    simp at hsetF hsetS
    refine ⟨by simp [dispatchState, hlen], by simp only [dispatchState]; omega,
      by simp only [dispatchState]; omega, by simp only [dispatchState]; omega,
      by simp only [dispatchState]; omega, by simp only [dispatchState]; omega,
      ?_, ?_⟩
    · simp only [dispatchState]
      intro i q hi hq
      have hne : ¬ s.next = i := by omega
      rw [List.get?_set_ne _ _ hne] at hq
      exact hpend i q (by omega) hq
    · simp only [dispatchState]
      intro i hi
      by_cases hij : i = s.next
      · subst hij
        rw [List.get?_set_eq_of_lt _ hnl] at hi
        cases hi
      · rw [List.get?_set_ne _ _ (fun h => hij h.symm)] at hi
        exact hsok i hi
  · -- an in-flight job `j` finishes
    have hjl : j < s.phases.length := by
      rcases List.get?_eq_some.1 hin with ⟨h, _⟩
      exact h
    have hjn : j < s.next := by
      by_contra hc
      push_neg at hc
      exact JobPhase.noConfusion (hpend j .inFlight hc hin)
    have hfl1 := countPh_pos_of_get? s.phases j .inFlight hin
    rcases hfin with ⟨hok, rfl⟩ | ⟨hok, rfl⟩
    · -- downloadFile returned nil: wg.Done, success print, pb.Increment
      have hsetF := countPh_set s.phases j .succeeded .inFlight _ hin
      have hsetS := countPh_set s.phases j .succeeded .succeeded _ hin
      simp at hsetF hsetS
      have hsum := countPh_add_le .succeeded .inFlight s.phases (by decide)
      refine ⟨by simp [okState, hlen], by simp only [okState]; omega,
        by simp only [okState]; omega, by simp only [okState]; omega,
        by simp only [okState]; omega, by simp only [okState]; omega,
        ?_, ?_⟩
      · simp only [okState]
        intro i q hi hq
        have hne : ¬ j = i := by omega
        rw [List.get?_set_ne _ _ hne] at hq
        exact hpend i q hi hq
      · simp only [okState]
        intro i hi
        by_cases hij : i = j
        · subst hij
          exact hok
        · rw [List.get?_set_ne _ _ (fun h => hij h.symm)] at hi
          exact hsok i hi
    · -- downloadFile returned an error: the fatal print kills the run
      have hsetF := countPh_set s.phases j .failed .inFlight _ hin
      have hsetS := countPh_set s.phases j .failed .succeeded _ hin
      simp at hsetF hsetS
      refine ⟨by simp [failState, hlen], by simp only [failState]; omega,
        by simp only [failState]; omega, by simp only [failState]; omega,
        by simp only [failState]; omega, by simp only [failState]; omega,
        ?_, ?_⟩
      · simp only [failState]
        intro i q hi hq
        have hne : ¬ j = i := by omega
        rw [List.get?_set_ne _ _ hne] at hq
        exact hpend i q hi hq
      · simp only [failState]
        intro i hi
        by_cases hij : i = j
        · subst hij
          rw [List.get?_set_eq_of_lt _ hjl] at hi
          cases hi
        · rw [List.get?_set_ne _ _ (fun h => hij h.symm)] at hi
          exact hsok i hi

/-- Every reachable state satisfies the invariant. -/
lemma reach_inv {cap : Nat} {ok : Nat → Bool} {urls : List String}
    {s : RunState} (h : Reach cap ok urls s) : Inv cap ok urls s := by
  induction h with
  | refl => exact inv_init cap ok urls
  | tail _ hstep ih => exact inv_step ih hstep

/-- When `wg.Wait()` has returned (`wg = 0`), every job's `downloadFile`
call returned `nil`: `wg` only ever reaches zero in an all-success run. -/
lemma wg_zero_all_ok {cap : Nat} {ok : Nat → Bool} {urls : List String}
    {s : RunState} {j : Nat} (h : Reach cap ok urls s) (h0 : s.wg = 0)
    (hj : j < urls.length) : ok j = true := by
  have hi := reach_inv h
  have hsucc : countPh .succeeded s.phases = s.phases.length := by
    have h1 := hi.2.2.2.2.1
    have h2 := hi.1
    omega
  have hjl : j < s.phases.length := hi.1 ▸ hj
  obtain ⟨p, hp⟩ : ∃ p, s.phases.get? j = some p := by
    rw [List.get?_eq_get hjl]
    exact ⟨_, rfl⟩
  have hps := eq_of_countPh_eq_length _ _ hsucc j p hp
  subst hps
  exact hi.2.2.2.2.2.2.2 j hp

/-! ## Lemmas on the path helpers -/

lemma fromSlashChars_eq (l : List Char) : fromSlashChars l = l := by
  unfold fromSlashChars
  induction l with
  | nil => rfl
  | cons c cs ih =>
    simp only [List.map_cons, ih]
    congr 1
    by_cases h : c = '/' <;> simp [pathSeparator, h]

lemma fromSlash_eq (s : String) : fromSlash s = s := by
  cases s with
  | mk data => simp [fromSlash, fromSlashChars_eq]

lemma baseChars_ne_nil (l : List Char) : ¬ baseChars l = [] := by
  unfold baseChars
  by_cases h0 : l = []
  · simp [h0]
  · rw [if_neg h0]
    by_cases h1 : ((l.reverse.dropWhile (fun c => c = '/')).reverse.reverse.takeWhile
        (fun c => ¬ c = '/')).reverse = []
    · rw [if_pos h1]
      simp
    · rw [if_neg h1]
      exact h1

lemma filepathBase_ne_empty (s : String) : ¬ filepathBase s = "" := by
  intro h
  exact baseChars_ne_nil s.data (congrArg String.data h)

/-! ## Lemmas on `downloadFile` -/

/-- How a fully successful `downloadFile` call behaves: returns `nil`,
prints the status diagnostic iff the status is not 200, calls
`os.MkdirAll` iff the output directory is nonempty, reaches `wg.Done()`,
and afterwards the file system holds the body at `outPath` and is
unchanged elsewhere. -/
lemma downloadFile_success (resp : HttpResponse) (URL dir : String)
    (fs0 : String → Option (List Nat)) :
    (downloadFile ⟨some resp, true, true, true⟩ URL dir fs0).res = none ∧
    (downloadFile ⟨some resp, true, true, true⟩ URL dir fs0).statusDiag
      = decide (¬ resp.statusCode = 200) ∧
    (downloadFile ⟨some resp, true, true, true⟩ URL dir fs0).mkdirCalled
      = decide (¬ dir = "") ∧
    (downloadFile ⟨some resp, true, true, true⟩ URL dir fs0).wgDone = true ∧
    ∀ q, (downloadFile ⟨some resp, true, true, true⟩ URL dir fs0).fs q
      = if q = outPath URL dir then some resp.body else fs0 q := by
  unfold downloadFile outPath
  refine ⟨by simp, by simp, by simp, by simp, ?_⟩
  intro q
  simp only [ite_not]
  by_cases hq : q = fromSlash (if dir = "" then dir
      else dir ++ pathSeparator.toString) ++ filepathBase URL <;>
    simp [hq]

/-! ## Lemmas on `ScanLines` -/

lemma dropCR_eq (l : List Char) (h : ¬ l.getLast? = some '\r') :
    dropCR l = l := by
  unfold dropCR
  cases hg : l.getLast? with
  | none => rfl
  | some c =>
    show (if c = '\r' then l.dropLast else l) = l
    rw [if_neg]
    intro hc
    subst hc
    exact h hg

lemma scanLinesAux_line (l : List Char) (acc rest : List Char)
    (h : ¬ '\n' ∈ l) :
    scanLinesAux acc (l ++ '\n' :: rest)
      = dropCR (acc.reverse ++ l) :: scanLinesAux [] rest := by
  induction l generalizing acc with
  | nil => simp [scanLinesAux]
  | cons c cs ih =>
    have hc : ¬ c = '\n' := fun hc => h (by simp [hc])
    have hcs : ¬ '\n' ∈ cs := fun hm => h (by simp [hm])
    show (if c = '\n' then dropCR acc.reverse :: scanLinesAux [] (cs ++ '\n' :: rest)
        else scanLinesAux (c :: acc) (cs ++ '\n' :: rest))
      = dropCR (acc.reverse ++ c :: cs) :: scanLinesAux [] rest
    rw [if_neg hc, ih (c :: acc) hcs]
    simp

lemma scanLinesAux_linesJoin (liness : List (List Char))
    (h : ∀ l ∈ liness, ¬ '\n' ∈ l ∧ ¬ l.getLast? = some '\r') :
    scanLinesAux [] (linesJoin liness) = liness := by
  induction liness with
  | nil => rfl
  | cons l ls ih =>
    have hl := h l (by simp)
    show scanLinesAux [] (l ++ '\n' :: linesJoin ls) = l :: ls
    rw [scanLinesAux_line l [] (linesJoin ls) hl.1]
    simp only [List.reverse_nil, List.nil_append]
    rw [dropCR_eq l hl.2, ih (fun x hx => h x (List.mem_cons_of_mem _ hx))]

/-! ## The claims -/

/-- C1: for every run of the bulk downloader with concurrency limit
`cap`, at no point are more than `cap` per-item transfer tasks
simultaneously in flight: in every reachable state of
`downloadMultipleFiles` the jobs dispatched but not yet finished —
the tokens occupying the guard channel — number at most `cap`, because
the fan-out loop's send on the guard blocks when no slot is free. -/
theorem inflight_never_exceeds_cap (cap : Nat) (ok : Nat → Bool)
    (urls : List String) (s : RunState) (h : Reach cap ok urls s) :
    countPh .inFlight s.phases ≤ cap :=
  (reach_inv h).2.2.1

/-- Witness: `inflight_never_exceeds_cap` at a concrete two-URL run, one step
after the first dispatch: one job in flight, within the limit 1. -/
theorem inflight_never_exceeds_cap_witness :
    countPh .inFlight (RunState.phases
      ⟨[.inFlight, .pending], 1, 2, 0, "x", false⟩) ≤ 1 :=
  inflight_never_exceeds_cap 1 (fun _ => true) ["https://h/x", "https://h/y"] _
    (Relation.ReflTransGen.tail Relation.ReflTransGen.refl
      (by decide : StepR 1 (fun _ => true) ["https://h/x", "https://h/y"]
        (initState ["https://h/x", "https://h/y"])
        ⟨[.inFlight, .pending], 1, 2, 0, "x", false⟩))

/-- C2 counterexample: a one-URL run whose download fails. The job
reaches its terminal state (`failed`), yet the completion tracker was
never decremented for it: `wg` is still 1, because `wg.Done()` sits on
`downloadFile`'s success path only, and the fatal print aborts the
process, so the orchestrator's `wg.Wait()` never returns — refuting
"decremented exactly once per job when it reaches a terminal state,
whether the job succeeds or fails". -/
theorem completion_cex_failed_job_keeps_wg :
    Reach 1 (fun _ => false) ["https://h/f"]
      ⟨[.failed], 1, 1, 0, "f", true⟩ ∧
    RunState.wg ⟨[.failed], 1, 1, 0, "f", true⟩ = 1 ∧
    countPh .failed (RunState.phases ⟨[.failed], 1, 1, 0, "f", true⟩) = 1 := by
  refine ⟨?_, by decide, by decide⟩
  exact Relation.ReflTransGen.tail
    (Relation.ReflTransGen.tail Relation.ReflTransGen.refl
      (by decide : StepR 1 (fun _ => false) ["https://h/f"]
        (initState ["https://h/f"]) ⟨[.inFlight], 1, 1, 0, "f", false⟩))
    (by decide : StepR 1 (fun _ => false) ["https://h/f"]
      ⟨[.inFlight], 1, 1, 0, "f", false⟩ ⟨[.failed], 1, 1, 0, "f", true⟩)

/-- C2 amended: the tracker is incremented by the number of jobs up
front (`wg.Add(len(urls))`) and decremented exactly once per
*successful* job: in every reachable state `wg` plus the number of
succeeded jobs equals the number of URLs, and `wg.Wait()` can return
(`wg = 0`) only once all `M` jobs have succeeded — a failed job never
decrements the tracker. -/
theorem wg_decrement_per_success (cap : Nat) (ok : Nat → Bool)
    (urls : List String) (s : RunState) (h : Reach cap ok urls s) :
    s.wg + countPh .succeeded s.phases = urls.length ∧
    (s.wg = 0 → countPh .succeeded s.phases = urls.length) := by
  have hi := reach_inv h
  have h5 := hi.2.2.2.2.1
  exact ⟨h5, fun h0 => by omega⟩

/-- Witness: `wg_decrement_per_success` at the start of a concrete one-URL run. -/
theorem wg_decrement_per_success_witness :
    RunState.wg (initState ["https://h/w"])
        + countPh .succeeded (RunState.phases (initState ["https://h/w"])) = 1 ∧
    (RunState.wg (initState ["https://h/w"]) = 0 →
      countPh .succeeded (RunState.phases (initState ["https://h/w"])) = 1) :=
  wg_decrement_per_success 2 (fun _ => true) ["https://h/w"] _
    Relation.ReflTransGen.refl

/-- C3 counterexample: three URLs with guard capacity 3 where the
second URL's GET fails (`downloadFile` returns the connection error).
After the first two dispatches the second job's failure aborts the
whole process while the first job is still in flight and the third was
never dispatched; the aborted state has no successor, so the run never
completes — refuting "reported for that item only and does not abort
other in-flight or pending items: the run still completes with files
present for jobs 1 and 3". -/
theorem transfer_failure_aborts_siblings :
    (downloadFile ⟨none, true, true, true⟩ "https://h/2" "out"
      (fun _ => none)).res = some .getError ∧
    Reach 3 (fun j => decide (¬ j = 1))
      ["https://h/1", "https://h/2", "https://h/3"]
      ⟨[.inFlight, .failed, .pending], 2, 3, 0, "2", true⟩ ∧
    RunState.aborted ⟨[.inFlight, .failed, .pending], 2, 3, 0, "2", true⟩
      = true ∧
    nexts 3 (fun j => decide (¬ j = 1)) ["https://h/1", "https://h/2", "https://h/3"]
      ⟨[.inFlight, .failed, .pending], 2, 3, 0, "2", true⟩ = [] ∧
    RunState.wg ⟨[.inFlight, .failed, .pending], 2, 3, 0, "2", true⟩ = 3 := by
  refine ⟨by decide, ?_, by decide, by decide, by decide⟩
  exact Relation.ReflTransGen.tail (Relation.ReflTransGen.tail
    (Relation.ReflTransGen.tail Relation.ReflTransGen.refl
      (by decide : StepR 3 (fun j => decide (¬ j = 1))
        ["https://h/1", "https://h/2", "https://h/3"]
        (initState ["https://h/1", "https://h/2", "https://h/3"])
        ⟨[.inFlight, .pending, .pending], 1, 3, 0, "1", false⟩))
    (by decide : StepR 3 (fun j => decide (¬ j = 1))
      ["https://h/1", "https://h/2", "https://h/3"]
      ⟨[.inFlight, .pending, .pending], 1, 3, 0, "1", false⟩
      ⟨[.inFlight, .inFlight, .pending], 2, 3, 0, "2", false⟩))
    (by decide : StepR 3 (fun j => decide (¬ j = 1))
      ["https://h/1", "https://h/2", "https://h/3"]
      ⟨[.inFlight, .inFlight, .pending], 2, 3, 0, "2", false⟩
      ⟨[.inFlight, .failed, .pending], 2, 3, 0, "2", true⟩)

/-- C3 amended: a transfer failure of a single URL does not stay
per-item: the fatal print kills the whole run. An aborted state takes
no further step (pending items are never dispatched), and as long as
some job's `downloadFile` fails the orchestrator never returns
normally: `wg` never reaches 0. -/
theorem failed_job_prevents_completion (cap : Nat) (ok : Nat → Bool)
    (urls : List String) (s : RunState) (j : Nat) (h : Reach cap ok urls s)
    (hj : j < urls.length) (hok : ok j = false) :
    (s.aborted = true → nexts cap ok urls s = []) ∧ ¬ s.wg = 0 := by
  refine ⟨fun hab => nexts_aborted hab, fun h0 => ?_⟩
  have := wg_zero_all_ok h h0 hj
  rw [hok] at this
  cases this

/-- Witness: `failed_job_prevents_completion` at the start of a concrete
one-URL run whose only download fails. -/
theorem failed_job_prevents_completion_witness :
    ((initState ["https://h/z"]).aborted = true →
      nexts 1 (fun _ => false) ["https://h/z"] (initState ["https://h/z"]) = []) ∧
    ¬ (initState ["https://h/z"]).wg = 0 :=
  failed_job_prevents_completion 1 (fun _ => false) ["https://h/z"] _ 0
    Relation.ReflTransGen.refl (by decide) rfl

/-- C4 counterexample: a two-URL run in which every item fails. The
first failure aborts the process: the reached state is aborted, has no
successor, and holds `wg = 2`, so `wg.Wait()` never returns and the
action's `return nil` is never executed — the overall run ends in a
fatal abort, not in a success report, refuting "the overall run is
reported as successful even if every individual item failed". -/
theorem allfail_run_not_reported_ok :
    Reach 3 (fun _ => false) ["https://h/a", "https://h/b"]
      ⟨[.failed, .pending], 1, 2, 0, "a", true⟩ ∧
    RunState.aborted ⟨[.failed, .pending], 1, 2, 0, "a", true⟩ = true ∧
    nexts 3 (fun _ => false) ["https://h/a", "https://h/b"]
      ⟨[.failed, .pending], 1, 2, 0, "a", true⟩ = [] ∧
    RunState.wg ⟨[.failed, .pending], 1, 2, 0, "a", true⟩ = 2 := by
  refine ⟨?_, by decide, by decide, by decide⟩
  exact Relation.ReflTransGen.tail
    (Relation.ReflTransGen.tail Relation.ReflTransGen.refl
      (by decide : StepR 3 (fun _ => false) ["https://h/a", "https://h/b"]
        (initState ["https://h/a", "https://h/b"])
        ⟨[.inFlight, .pending], 1, 2, 0, "a", false⟩))
    (by decide : StepR 3 (fun _ => false) ["https://h/a", "https://h/b"]
      ⟨[.inFlight, .pending], 1, 2, 0, "a", false⟩
      ⟨[.failed, .pending], 1, 2, 0, "a", true⟩)

/-- C4 amended: only the `InputError` of `readLines` is propagated as
the action's result, surfaced before any task is dispatched (the error
branch returns before `wg.Add` and the fan-out); per-item errors are
never returned to the caller — instead any item failure aborts the
process fatally, so the action reports success (`wg.Wait()` returns
and `nil` is returned) only in runs where every item succeeded. -/
theorem input_error_only_propagation :
    (∀ e, bulkAction (.error e) = .error e) ∧
    (∀ content, bulkAction (.ok content) = .ok (scanLines content)) ∧
    (∀ cap ok urls s j, Reach cap ok urls s → s.wg = 0 →
      j < urls.length → ok j = true) := by
  refine ⟨fun e => rfl, fun content => rfl, ?_⟩
  intro cap ok urls s j h h0 hj
  exact wg_zero_all_ok h h0 hj

/-- C5: a non-success HTTP status is a soft warning: with the response
present and the local steps succeeding, `downloadFile` prints the
status diagnostic, still writes the returned body to the destination
path, and returns `nil` — the item is not failed. -/
theorem status_warning_still_writes (resp : HttpResponse) (URL dir : String)
    (fs0 : String → Option (List Nat)) (hst : ¬ resp.statusCode = 200) :
    (downloadFile ⟨some resp, true, true, true⟩ URL dir fs0).statusDiag = true ∧
    (downloadFile ⟨some resp, true, true, true⟩ URL dir fs0).res = none ∧
    (downloadFile ⟨some resp, true, true, true⟩ URL dir fs0).fs (outPath URL dir)
      = some resp.body := by
  obtain ⟨h1, h2, _, _, h5⟩ := downloadFile_success resp URL dir fs0
  refine ⟨by rw [h2]; simpa using hst, h1, by rw [h5 (outPath URL dir)]; simp⟩

/-- Witness: `status_warning_still_writes` at a concrete 404 response. -/
theorem status_warning_still_writes_witness :
    (downloadFile ⟨some ⟨404, [1, 2, 3]⟩, true, true, true⟩ "https://h/w.bin" ""
      (fun _ => none)).statusDiag = true ∧
    (downloadFile ⟨some ⟨404, [1, 2, 3]⟩, true, true, true⟩ "https://h/w.bin" ""
      (fun _ => none)).res = none ∧
    (downloadFile ⟨some ⟨404, [1, 2, 3]⟩, true, true, true⟩ "https://h/w.bin" ""
      (fun _ => none)).fs (outPath "https://h/w.bin" "") = some [1, 2, 3] :=
  status_warning_still_writes ⟨404, [1, 2, 3]⟩ "https://h/w.bin" ""
    (fun _ => none) (by decide)

/-- C6 counterexample: the code never clamps the concurrency value.
With `concurrentDownloads = 0` the guard channel is unbuffered, so the
very first send blocks forever: from the initial state of a one-URL run
no step is possible, the job stays pending and `wg` stays 1 — the run
makes no progress, refuting "clamped to at least 1 before use, so for
every input list the run makes progress". -/
theorem zero_concurrency_no_progress :
    nexts 0 (fun _ => true) ["https://h/only"]
      (initState ["https://h/only"]) = [] ∧
    RunState.phases (initState ["https://h/only"]) = [.pending] ∧
    RunState.wg (initState ["https://h/only"]) = 1 := by
  refine ⟨by decide, by decide, by decide⟩

/-- C6 amended: the concurrency parameter is used unclamped as the
guard channel's capacity. With capacity 0 no dispatch is ever possible
(the fan-out loop blocks forever on a nonempty list; a negative value
would make the channel allocation panic), while any capacity at least
the number of URLs degrades gracefully to full parallelism: a dispatch
is always enabled while URLs remain and the run is alive. -/
theorem cap_unclamped_semantics :
    (∀ ok urls, nexts 0 ok urls (initState urls) = []) ∧
    (∀ cap ok urls s, Reach cap ok urls s → urls.length ≤ cap →
      s.aborted = false → s.next < urls.length →
      StepR cap ok urls s (dispatchState urls s)) := by
  constructor
  · intro ok urls
    unfold nexts
    rw [if_neg (by simp [initState] : ¬ (initState urls).aborted = true)]
    rw [if_neg (fun hc => Nat.not_lt_zero _ hc.2)]
    rw [List.nil_append]
    refine List.filterMap_eq_nil.2 ?_
    intro j hj
    rw [if_neg]
    intro hin
    have := List.get?_mem hin
    simp [initState] at this
  · intro cap ok urls s h hcap hab hn
    have hi := reach_inv h
    have h4 := hi.2.2.2.1
    exact dispatch_mem hab hn (by omega)

/-- C7 counterexample: `readLines` keeps every scanned line, empty or
whitespace-only alike — there is no non-empty-line filter. A file
holding only a blank-space line yields one job, and empty lines inside
a file become jobs of their own, refuting "each non-empty line ...
exactly one URL job" / "a whitespace-only file yields zero jobs". -/
theorem whitespace_only_file_yields_job :
    readLines (.ok "  \n") = .ok ["  "] ∧
    readLines (.ok "\n\n") = .ok ["", ""] ∧
    scanLines "a\n\nb" = ["a", "", "b"] := by
  refine ⟨rfl, rfl, by decide⟩

/-- C7 amended: reading the input list turns *every* line of the
newline-delimited file — empty lines included — into exactly one URL
job, with no trimming beyond line-splitting (and the CR `ScanLines`
strips); only an empty file yields zero jobs. For any list of lines
(each free of `'\n'` and not CR-terminated), scanning the file made of
those lines returns exactly them, and the empty file scans to no
jobs. -/
theorem every_line_becomes_one_job (liness : List (List Char))
    (h : ∀ l ∈ liness, ¬ '\n' ∈ l ∧ ¬ l.getLast? = some '\r') :
    scanLines ⟨linesJoin liness⟩ = liness.map (fun l => ⟨l⟩) ∧
    readLines (.ok "") = .ok [] := by
  constructor
  · show (scanLinesAux [] (linesJoin liness)).map (fun l => (⟨l⟩ : String))
      = liness.map (fun l => ⟨l⟩)
    rw [scanLinesAux_linesJoin liness h]
  · rfl

/-- Witness: `every_line_becomes_one_job` on a concrete three-line file with an
empty middle line. -/
theorem every_line_becomes_one_job_witness :
    scanLines ⟨linesJoin [['a'], [], ['b']]⟩
      = ([['a'], [], ['b']] : List (List Char)).map (fun l => ⟨l⟩) ∧
    readLines (.ok "") = .ok [] :=
  every_line_becomes_one_job [['a'], [], ['b']] (by decide)

/-- C8: the output filename is the final path segment of the URL
(`filepath.Base`), e.g. `file.zip` for
`https://example.com/a/b/file.zip`; the file is written directly under
the output directory when one is given and to the current directory
otherwise; the write overwrites whatever the file system previously
held at that path (the result does not depend on `fs0`), leaves every
other path untouched, and `os.MkdirAll` (which creates parents) is
called exactly when the output directory is nonempty. -/
theorem filename_from_last_segment (resp : HttpResponse) (URL dir : String)
    (fs0 : String → Option (List Nat)) :
    filepathBase "https://example.com/a/b/file.zip" = "file.zip" ∧
    (downloadFile ⟨some resp, true, true, true⟩ URL dir fs0).res = none ∧
    (downloadFile ⟨some resp, true, true, true⟩ URL dir fs0).mkdirCalled
      = decide (¬ dir = "") ∧
    (downloadFile ⟨some resp, true, true, true⟩ URL dir fs0).fs (outPath URL dir)
      = some resp.body ∧
    (dir = "" → outPath URL dir = filepathBase URL) ∧
    (¬ dir = "" → outPath URL dir = (dir ++ "/") ++ filepathBase URL) ∧
    (∀ q, ¬ q = outPath URL dir →
      (downloadFile ⟨some resp, true, true, true⟩ URL dir fs0).fs q = fs0 q) := by
  obtain ⟨h1, _, h3, _, h5⟩ := downloadFile_success resp URL dir fs0
  refine ⟨by decide, h1, h3, by rw [h5 (outPath URL dir)]; simp, ?_, ?_, ?_⟩
  · intro hdir
    simp [outPath, hdir, fromSlash_eq]
  · intro hdir
    have : pathSeparator.toString = "/" := rfl
    simp [outPath, hdir, fromSlash_eq, this]
  · intro q hq
    rw [h5 q, if_neg hq]

/-- C9 counterexample: a one-URL run whose download fails. The item
completes (terminal state `failed`) but the progress counter is still
0: the increment sits after the error check, and the fatal print
terminates the run before it — refuting "advances exactly once per
completed item, on failure as well as on success". -/
theorem progress_not_advanced_on_failure :
    Reach 2 (fun _ => false) ["https://h/p.txt"]
      ⟨[.failed], 1, 1, 0, "p.txt", true⟩ ∧
    RunState.pb ⟨[.failed], 1, 1, 0, "p.txt", true⟩ = 0 ∧
    countPh .failed (RunState.phases ⟨[.failed], 1, 1, 0, "p.txt", true⟩)
      = 1 := by
  refine ⟨?_, by decide, by decide⟩
  exact Relation.ReflTransGen.tail
    (Relation.ReflTransGen.tail Relation.ReflTransGen.refl
      (by decide : StepR 2 (fun _ => false) ["https://h/p.txt"]
        (initState ["https://h/p.txt"])
        ⟨[.inFlight], 1, 1, 0, "p.txt", false⟩))
    (by decide : StepR 2 (fun _ => false) ["https://h/p.txt"]
      ⟨[.inFlight], 1, 1, 0, "p.txt", false⟩
      ⟨[.failed], 1, 1, 0, "p.txt", true⟩)

/-- C9 amended: the progress indicator advances exactly once per
*successfully* completed item — in every reachable state the progress
count equals the number of succeeded jobs. A failed item never advances
it (the fatal print kills the run first), and the title is set to the
derived filename when a task starts rather than after it completes. -/
theorem progress_counts_successes (cap : Nat) (ok : Nat → Bool)
    (urls : List String) (s : RunState) (h : Reach cap ok urls s) :
    s.pb = countPh .succeeded s.phases :=
  (reach_inv h).2.2.2.2.2.1

/-- Witness: `progress_counts_successes` at the start of a concrete run. -/
theorem progress_counts_successes_witness :
    RunState.pb (initState ["https://h/q"])
      = countPh .succeeded (RunState.phases (initState ["https://h/q"])) :=
  progress_counts_successes 3 (fun _ => true) ["https://h/q"] _
    Relation.ReflTransGen.refl

/-- C10: the derived output filename is never the empty string:
`filepath.Base` strips trailing separators before taking the final
segment, so a URL ending in `/` yields the preceding segment and a bare
`https://host/` yields `host`; and `downloadFile` raises no error for
such URLs — the success path is taken regardless of the URL's shape. -/
theorem derived_filename_never_empty :
    (∀ s : String, ¬ filepathBase s = "") ∧
    filepathBase "https://example.com/a/" = "a" ∧
    filepathBase "https://host/" = "host" ∧
    (∀ (URL : String) (resp : HttpResponse) (fs0 : String → Option (List Nat)),
      (downloadFile ⟨some resp, true, true, true⟩ URL "" fs0).res = none) := by
  refine ⟨filepathBase_ne_empty, by decide, by decide, ?_⟩
  intro URL resp fs0
  exact (downloadFile_success resp URL "" fs0).1

end Dops
